import Mathlib

/-!
Verification development for the context-vault synchronization and
append-storage engine.

The Lean definitions below are a shallow embedding of the JavaScript
source (`src/vault.js`, `src/watcher.js`, `src/schema.sql`):

* The SQLite tables become lists of rows held in a `VaultState`
  record; SQL `INSERT` becomes appending a row at the end of the
  list, `UPDATE` a `List.map`, `SELECT ... WHERE` a `List.filter`,
  `ORDER BY timestamp DESC` a stable insertion sort on timestamps.
* `Date.now()` becomes an explicit clock argument `now : Nat`;
  `Date#toISOString` is passed in as a rendering function
  `iso : Nat → String`.
* Message metadata is carried as its serialized JSON string (the
  store never inspects it).
* Transcript lines are modelled by an inductive `Line` reflecting the
  outcome of `JSON.parse` on one line: a session record, a message
  record, some other well-formed record, or a malformed line.
-/

/-- A row of the `sessions` table (`schema.sql`).  `total_messages`
has SQL `DEFAULT 0`. -/
structure Session where
  id : String
  agent_id : Option String
  created_at : Nat
  last_activity : Nat
  total_messages : Nat
  deriving DecidableEq

/-- A row of the `messages` table.  `id` is the AUTOINCREMENT rowid;
`metadata` is the `JSON.stringify`-ed metadata payload. -/
structure Message where
  id : Nat
  session_id : String
  message_index : Nat
  role : String
  content : String
  timestamp : Nat
  metadata : String
  deriving DecidableEq

/-- A row of the `snapshots` table. -/
structure Snapshot where
  session_id : String
  name : String
  trigger : String
  message_count : Nat
  created_at : Nat
  last_message_id : Option Nat
  deriving DecidableEq

/-- A row of the `compactions` table.  `summary_available` is stored
as `0` or `1`, as in the SQLite schema. -/
structure Compaction where
  session_id : String
  timestamp : Nat
  messages_before : Nat
  messages_after : Nat
  summary_available : Nat
  deriving DecidableEq

/-- The durable store: the four row collections of `schema.sql`, each
in rowid (insertion) order. -/
structure VaultState where
  sessions : List Session
  messages : List Message
  snapshots : List Snapshot
  compactions : List Compaction
  deriving DecidableEq

/-- A fresh database, right after `initSchema`. -/
def emptyVault : VaultState := ⟨[], [], [], []⟩

/-- `SELECT * FROM sessions WHERE id = ?` (at most one row: `id` is
the primary key). -/
def findSession (v : VaultState) (sid : String) : Option Session :=
  v.sessions.find? (fun s => s.id = sid)

/-- `SELECT * FROM messages WHERE session_id = ?`, in rowid order. -/
def sessionMessages (v : VaultState) (sid : String) : List Message :=
  v.messages.filter (fun m => m.session_id = sid)

/-- `ContextVault.ensureSession`: insert the session row if absent
(`INSERT ... VALUES (?, ?, now, now)`, `total_messages` defaulted
to 0). -/
def ensureSession (v : VaultState) (sid : String) (agentId : Option String)
    (now : Nat) : VaultState :=
  match findSession v sid with
  | some _ => v
  | none => { v with sessions := v.sessions ++ [⟨sid, agentId, now, now, 0⟩] }

/-- `SELECT MAX(message_index) FROM messages WHERE session_id = ?`:
`none` models SQL `NULL` on an empty row set. -/
def maxIdx : List Message → Option Nat
  | [] => none
  | m :: rest =>
    some (match maxIdx rest with
          | none => m.message_index
          | some k => max m.message_index k)

/-- `(lastIndex?.idx ?? -1) + 1` from `ContextVault.appendMessage`. -/
def newIndex (msgs : List Message) : Nat :=
  match maxIdx msgs with
  | none => 0
  | some k => k + 1

/-- `ContextVault.appendMessage`: ensure the session row, insert one
message row with index `max + 1` and the current time, then bump the
session's `total_messages` and `last_activity`.  The new row's rowid
is one past the number of existing rows (AUTOINCREMENT with no
deletions). -/
def appendMessage (v : VaultState) (sid role content metadata : String)
    (now : Nat) : VaultState :=
  let v1 : VaultState := ensureSession v sid none now
  let idx : Nat := newIndex (sessionMessages v1 sid)
  let v2 : VaultState := { v1 with
    messages := v1.messages ++
      [(⟨v1.messages.length + 1, sid, idx, role, content, now, metadata⟩ : Message)] }
  { v2 with
    sessions := v2.sessions.map (fun s =>
      if s.id = sid then
        { s with last_activity := now, total_messages := s.total_messages + 1 }
      else s) }

/-- The result record of `ContextVault.getSessionStats`. -/
structure SessionStats where
  sessionId : String
  messageCount : Nat
  lastActivity : Option Nat
  createdAt : Option Nat
  deriving DecidableEq

/-- `ContextVault.getSessionStats`: `COUNT(*)` over the session's
messages plus the optional session-row fields. -/
def getSessionStats (v : VaultState) (sid : String) : SessionStats :=
  let session := findSession v sid
  { sessionId := sid
    messageCount := (sessionMessages v sid).length
    lastActivity := session.map (fun s => s.last_activity)
    createdAt := session.map (fun s => s.created_at) }

/-- `ContextVault.recordCompaction`: ensure the session row, then
insert one compaction row (`summary_available` as 0/1). -/
def recordCompaction (v : VaultState) (sid : String)
    (messagesBefore messagesAfter : Nat) (summaryAvailable : Bool)
    (now : Nat) : VaultState :=
  let v1 := ensureSession v sid none now
  { v1 with compactions :=
      v1.compactions ++
        [⟨sid, now, messagesBefore, messagesAfter, if summaryAvailable then 1 else 0⟩] }

/-- `ContextVault.createSnapshot`: ensure the session row, then insert
one snapshot row capturing the current message count and the rowid of
the session's most recent message (`ORDER BY id DESC LIMIT 1`; rowids
increase along `sessionMessages`, so this is the last element). -/
def createSnapshot (v : VaultState) (sid name trigger : String)
    (now : Nat) : VaultState :=
  let v1 := ensureSession v sid none now
  let stats := getSessionStats v1 sid
  let lastMsg := (sessionMessages v1 sid).getLast?
  { v1 with snapshots :=
      v1.snapshots ++
        [⟨sid, name, trigger, stats.messageCount, now, lastMsg.map (fun m => m.id)⟩] }

/-- Newest-first comparison used by `ORDER BY timestamp DESC`:
`tsGe a b` holds when `a` is at least as recent as `b`. -/
def tsGe (a b : Message) : Prop := b.timestamp ≤ a.timestamp

instance : DecidableRel tsGe := fun a b => Nat.decLe b.timestamp a.timestamp

instance : IsTotal Message tsGe :=
  ⟨fun a b => Nat.le_total b.timestamp a.timestamp⟩

instance : IsTrans Message tsGe :=
  ⟨fun _ _ _ hab hbc => Nat.le_trans hbc hab⟩

/-- The session's messages in the order produced by
`ORDER BY timestamp DESC` (stable on ties). -/
def sortedByTsDesc (v : VaultState) (sid : String) : List Message :=
  List.insertionSort tsGe (sessionMessages v sid)

/-- `ContextVault.getMessages`: `ORDER BY timestamp DESC LIMIT limit
OFFSET offset` (skip `offset` rows of the ordering, return at most
`limit`). -/
def getMessages (v : VaultState) (sid : String) (limit offset : Nat) :
    List Message :=
  ((sortedByTsDesc v sid).drop offset).take limit

/-- `msg.content?.slice(0, 2000) || '(no content)'` from
`generateRecoveryFile`: an empty (or absent) content renders the
placeholder, otherwise at most the first 2000 characters. -/
def truncContent (c : String) : String :=
  if c = "" then "(no content)" else String.mk (c.data.take 2000)

/-- Newest-first comparison for compaction rows. -/
def compTsGe (a b : Compaction) : Prop := b.timestamp ≤ a.timestamp

instance : DecidableRel compTsGe := fun a b => Nat.decLe b.timestamp a.timestamp

/-- `SELECT * FROM compactions WHERE session_id = ? ORDER BY timestamp
DESC LIMIT 1` from `generateRecoveryFile`. -/
def latestCompaction (v : VaultState) (sid : String) : Option Compaction :=
  (List.insertionSort compTsGe (v.compactions.filter (fun c => c.session_id = sid))).head?

/-- The header lines of the recovery document (`generatedAt` is the
rendering of `new Date().toISOString()`). -/
def recoveryHeader (sid generatedAt : String) (n : Nat) : String :=
  "# Context Recovery File\n\n" ++
    "**Session:** " ++ sid ++ "\n" ++
    "**Generated:** " ++ generatedAt ++ "\n" ++
    "**Messages:** Last " ++ toString n ++ "\n\n"

/-- The `## Last Compaction` section, empty when the session has no
compaction row. -/
def compactionSection (iso : Nat → String) : Option Compaction → String
  | none => ""
  | some c =>
    "## Last Compaction\n" ++
      "- Time: " ++ iso c.timestamp ++ "\n" ++
      "- Messages before: " ++ toString c.messages_before ++ "\n" ++
      "- Summary available: " ++
      (if c.summary_available ≠ 0 then "yes" else "no") ++ "\n\n"

/-- The messages rendered into the recovery document: the fetched
newest-first window, reversed into chronological order
(`messages.reverse()` in `generateRecoveryFile`). -/
def recoveryMessages (v : VaultState) (sid : String) (messageCount : Nat) :
    List Message :=
  (getMessages v sid messageCount 0).reverse

/-- One `### [time] ROLE` block of the recovery document; the
time-of-day stamp is `toISOString().slice(11, 19)`. -/
def renderMessage (iso : Nat → String) (m : Message) : String :=
  "### [" ++ ((iso m.timestamp).drop 11).take 8 ++ "] " ++ m.role.toUpper ++
    "\n\n" ++ truncContent m.content ++ "\n\n" ++ "---\n\n"

/-- `ContextVault.generateRecoveryFile` (the RecoveryComposer).  The
source's default `messageCount` is 50; the optional file write is a
side effect outside the store model. -/
def generateRecoveryFile (v : VaultState) (sid : String) (messageCount : Nat)
    (iso : Nat → String) (generatedAt : String) : String :=
  let messages := getMessages v sid messageCount 0
  recoveryHeader sid generatedAt messages.length ++
    compactionSection iso (latestCompaction v sid) ++
    "## Recent Conversation\n\n" ++
    String.join ((recoveryMessages v sid messageCount).map (renderMessage iso))

/-- One typed fragment of an array-valued message `content`
(`{type, text}` in the transcript format): either a plain-text
fragment or a fragment of another type. -/
inductive ContentPart where
  | text (s : String)
  | nontext
  deriving DecidableEq

/-- The `content` field of a transcript message record: a single
string, an array of typed fragments, or something else. -/
inductive MsgContent where
  | str (s : String)
  | parts (ps : List ContentPart)
  | other
  deriving DecidableEq

/-- Content flattening from `parseSessionFile`: an array keeps the
text of its `text` fragments joined by newline, a string is used
verbatim, anything else yields the empty string. -/
def extractText : MsgContent → String
  | .str s => s
  | .parts ps =>
    String.intercalate "\n"
      (ps.filterMap (fun p => match p with
        | .text s => some s
        | .nontext => none))
  | .other => ""

/-- One line of a transcript file, by the outcome of `JSON.parse`:
a `{"type":"session"}` record, a `{"type":"message","message":…}`
record, some other well-formed record (ignored), or a line on which
`JSON.parse` throws (skipped). -/
inductive Line where
  | sessionLine (id : String) (timestamp : Option Nat)
  | messageLine (role : String) (content : MsgContent) (msgTs objTs : Option Nat)
  | otherLine
  | malformed
  deriving DecidableEq

/-- The session descriptor built from a `type === 'session'` record. -/
structure SessionMeta where
  sessionKey : String
  id : String
  timestamp : Option Nat
  deriving DecidableEq

/-- A message extracted by the parser: role, flattened text content,
and `msg.timestamp || obj.timestamp`. -/
structure ParsedMessage where
  role : String
  content : String
  timestamp : Option Nat
  deriving DecidableEq

/-- JavaScript `a || b` on numeric timestamps (`0` is falsy). -/
def jsOrNat : Option Nat → Option Nat → Option Nat
  | some (n + 1), _ => some (n + 1)
  | _, b => b

/-- The session descriptor contributed by one line
(`sessionKey = "session:" + obj.id`). -/
def lineSession : Line → Option SessionMeta
  | .sessionLine id ts => some ⟨"session:" ++ id, id, ts⟩
  | _ => none

/-- The parsed message contributed by one line: kept only when the
flattened text is non-empty and the role is `user` or `assistant`. -/
def lineMessage : Line → Option ParsedMessage
  | .messageLine role content msgTs objTs =>
    let textContent := extractText content
    if textContent ≠ "" ∧ (role = "user" ∨ role = "assistant") then
      some ⟨role, textContent, jsOrNat msgTs objTs⟩
    else none
  | _ => none

/-- The result of `SessionWatcher.parseSessionFile`. -/
structure ParseResult where
  session : Option SessionMeta
  messages : List ParsedMessage
  deriving DecidableEq

/-- `SessionWatcher.parseSessionFile`: scan the lines in order; the
session descriptor is overwritten by each session record (last one
wins), messages accumulate in line order, malformed and unrecognized
lines contribute nothing. -/
def parseSessionFile : List Line → ParseResult
  | [] => ⟨none, []⟩
  | l :: rest =>
    let r := parseSessionFile rest
    ⟨match r.session with
      | some s => some s
      | none => lineSession l,
     (lineMessage l).toList ++ r.messages⟩

/-- `JSON.stringify({ timestamp: msg.timestamp })` for the metadata
attached to synchronized messages. -/
def metaJson : Option Nat → String
  | some n => "\x7b\"timestamp\":" ++ toString n ++ "\x7d"
  | none => "\x7b\x7d"

/-- One entry of the watcher's `lastSync` map. -/
structure LastSyncInfo where
  messageCount : Nat
  timestamp : Nat
  deriving DecidableEq

/-- `SessionWatcher` state: the vault plus the in-memory per-session
cursor map `lastSync` (empty on process start). -/
structure WatcherState where
  vault : VaultState
  lastSync : List (String × LastSyncInfo)
  deriving DecidableEq

/-- `this.lastSync[sessionId]` lookup. -/
def lookupSync (ls : List (String × LastSyncInfo)) (sid : String) :
    Option LastSyncInfo :=
  (ls.find? (fun p => p.1 = sid)).map (fun p => p.2)

/-- `this.lastSync[sessionId] = info` (update or insert). -/
def setSync (ls : List (String × LastSyncInfo)) (sid : String)
    (info : LastSyncInfo) : List (String × LastSyncInfo) :=
  if (ls.find? (fun p => p.1 = sid)).isSome then
    ls.map (fun p => if p.1 = sid then (sid, info) else p)
  else ls ++ [(sid, info)]

/-- `(this.lastSync[sessionId] || { messageCount: 0 }).messageCount`:
the cursor's remembered count when the session was seen in this
process run, and 0 otherwise. -/
def priorCount (w : WatcherState) (sid : String) : Nat :=
  ((lookupSync w.lastSync sid).map (fun i => i.messageCount)).getD 0

/-- The result of `SessionWatcher.syncSession` (`sessionId` is absent
on the early no-session return). -/
structure SyncResult where
  synced : Nat
  sessionId : Option String
  total : Nat
  deriving DecidableEq

/-- The message-append loop of `syncSession`: append each remaining
parsed message whose content is non-empty, counting the appends. -/
def syncAppendLoop : VaultState → String → Nat → List ParsedMessage →
    VaultState × Nat
  | v, _, _, [] => (v, 0)
  | v, sid, now, pm :: rest =>
    if pm.content ≠ "" then
      let out := syncAppendLoop
        (appendMessage v sid pm.role pm.content (metaJson pm.timestamp) now)
        sid now rest
      (out.1, out.2 + 1)
    else syncAppendLoop v sid now rest

/-- `SessionWatcher.syncSession`: parse the transcript; without a
session descriptor, no-op.  Otherwise record a compaction when the
cursor count is positive and the parsed count dropped below it by
more than 5, append every parsed message from the store's persisted
count onward, and update the cursor to the new parsed count. -/
def syncSession (w : WatcherState) (lines : List Line) (now : Nat) :
    WatcherState × SyncResult :=
  let r := parseSessionFile lines
  match r.session with
  | none => (w, ⟨0, none, 0⟩)
  | some sess =>
    let sessionId := sess.sessionKey
    let lastCount := priorCount w sessionId
    let v1 : VaultState :=
      if 0 < lastCount ∧ (r.messages.length : Int) < (lastCount : Int) - 5 then
        recordCompaction w.vault sessionId lastCount r.messages.length true now
      else w.vault
    let existingCount := (getSessionStats v1 sessionId).messageCount
    let out := syncAppendLoop v1 sessionId now (r.messages.drop existingCount)
    ({ vault := out.1,
       lastSync := setSync w.lastSync sessionId ⟨r.messages.length, now⟩ },
     ⟨out.2, some sessionId, r.messages.length⟩)

/-- The aggregate result of `SessionWatcher.syncAll`. -/
structure SyncAllResult where
  totalSynced : Nat
  sessionsUpdated : Nat
  filesScanned : Nat
  deriving DecidableEq

/-- One iteration of the `syncAll` loop.  A transcript file is an
`Except`: `error` models a file whose read throws (caught by the
loop, which reports it and continues with the state unchanged —
`readFileSync` is the first action of `syncSession`, before any
mutation). -/
def syncAllStep (now : Nat) (acc : WatcherState × Nat × Nat)
    (file : Except String (List Line)) : WatcherState × Nat × Nat :=
  match file with
  | .error _ => acc
  | .ok lines =>
    let out := syncSession acc.1 lines now
    if 0 < out.2.synced then
      (out.1, acc.2.1 + out.2.synced, acc.2.2 + 1)
    else
      (out.1, acc.2.1, acc.2.2)

/-- `SessionWatcher.syncAll`: fold `syncSession` over the discovered
files, aggregating counts and skipping files whose read fails;
`filesScanned` is the number of discovered files. -/
def syncAll (w : WatcherState) (files : List (Except String (List Line)))
    (now : Nat) : WatcherState × SyncAllResult :=
  let acc := files.foldl (syncAllStep now) (w, 0, 0)
  (acc.1, ⟨acc.2.1, acc.2.2, files.length⟩)

/-- A store write operation (the mutating surface of `ContextVault`). -/
inductive VaultOp where
  | append (sid role content metadata : String) (now : Nat)
  | snapshot (sid name trigger : String) (now : Nat)
  | compaction (sid : String) (numBefore numAfter : Nat) (summary : Bool) (now : Nat)
  deriving DecidableEq

/-- Apply one store operation. -/
def applyOp (v : VaultState) : VaultOp → VaultState
  | .append sid role content metadata now => appendMessage v sid role content metadata now
  | .snapshot sid name trigger now => createSnapshot v sid name trigger now
  | .compaction sid numBefore numAfter summary now =>
    recordCompaction v sid numBefore numAfter summary now

/-- Run a sequence of store operations from a fresh database. -/
def runOps (ops : List VaultOp) : VaultState := ops.foldl applyOp emptyVault

/-- Invariant of every reachable store state: a session id with no
session row has no message rows; each session row's `total_messages`
counter equals its number of message rows; and each session's message
indices are exactly `0, 1, …, count − 1` in rowid order. -/
def vaultInv (v : VaultState) : Prop :=
  (∀ sid, findSession v sid = none → sessionMessages v sid = []) ∧
  (∀ s ∈ v.sessions, s.total_messages = (sessionMessages v s.id).length) ∧
  (∀ sid, (sessionMessages v sid).map (fun m => m.message_index) =
    List.range (sessionMessages v sid).length)

/-- The message rows created by the append loop of `syncSession`,
starting from `rowLen` existing message rows and next per-session
index `idx`. -/
def appendedRows (sid : String) (now : Nat) :
    Nat → Nat → List ParsedMessage → List Message
  | _, _, [] => []
  | rowLen, idx, pm :: rest =>
    ⟨rowLen + 1, sid, idx, pm.role, pm.content, now, metaJson pm.timestamp⟩ ::
      appendedRows sid now (rowLen + 1) (idx + 1) rest

example :
    getMessages
      (appendMessage (appendMessage emptyVault "s" "user" "a" "null" 1)
        "s" "assistant" "b" "null" 2) "s" 50 0
    = [⟨2, "s", 1, "assistant", "b", 2, "null"⟩, ⟨1, "s", 0, "user", "a", 1, "null"⟩] := by
  decide

/-! ### Basic store lemmas -/

theorem ensureSession_messages (v : VaultState) (sid : String)
    (a : Option String) (now : Nat) :
    (ensureSession v sid a now).messages = v.messages := by
  unfold ensureSession
  cases findSession v sid <;> rfl

theorem ensureSession_compactions (v : VaultState) (sid : String)
    (a : Option String) (now : Nat) :
    (ensureSession v sid a now).compactions = v.compactions := by
  unfold ensureSession
  cases findSession v sid <;> rfl

theorem ensureSession_snapshots (v : VaultState) (sid : String)
    (a : Option String) (now : Nat) :
    (ensureSession v sid a now).snapshots = v.snapshots := by
  unfold ensureSession
  cases findSession v sid <;> rfl

theorem sessionMessages_eq_of_messages_eq {v₁ v₂ : VaultState}
    (h : v₁.messages = v₂.messages) (sid : String) :
    sessionMessages v₁ sid = sessionMessages v₂ sid := by
  unfold sessionMessages
  rw [h]

theorem appendMessage_messages (v : VaultState) (sid role content metadata : String)
    (now : Nat) :
    (appendMessage v sid role content metadata now).messages =
      v.messages ++
        [⟨v.messages.length + 1, sid, newIndex (sessionMessages v sid), role,
          content, now, metadata⟩] := by
  unfold appendMessage
  simp only [ensureSession_messages]
  rw [sessionMessages_eq_of_messages_eq (ensureSession_messages v sid none now)]

theorem appendMessage_compactions (v : VaultState) (sid role content metadata : String)
    (now : Nat) :
    (appendMessage v sid role content metadata now).compactions = v.compactions := by
  unfold appendMessage
  simp [ensureSession_compactions]

theorem appendMessage_snapshots (v : VaultState) (sid role content metadata : String)
    (now : Nat) :
    (appendMessage v sid role content metadata now).snapshots = v.snapshots := by
  unfold appendMessage
  simp [ensureSession_snapshots]

theorem recordCompaction_messages (v : VaultState) (sid : String)
    (b a : Nat) (s : Bool) (now : Nat) :
    (recordCompaction v sid b a s now).messages = v.messages := by
  unfold recordCompaction
  simp [ensureSession_messages]

theorem recordCompaction_compactions (v : VaultState) (sid : String)
    (b a : Nat) (s : Bool) (now : Nat) :
    (recordCompaction v sid b a s now).compactions =
      v.compactions ++ [⟨sid, now, b, a, if s then 1 else 0⟩] := by
  unfold recordCompaction
  simp [ensureSession_compactions]

theorem createSnapshot_messages (v : VaultState) (sid name trigger : String)
    (now : Nat) :
    (createSnapshot v sid name trigger now).messages = v.messages := by
  unfold createSnapshot
  simp [ensureSession_messages]

theorem createSnapshot_compactions (v : VaultState) (sid name trigger : String)
    (now : Nat) :
    (createSnapshot v sid name trigger now).compactions = v.compactions := by
  unfold createSnapshot
  simp [ensureSession_compactions]

theorem sessionMessages_appendMessage_self (v : VaultState)
    (sid role content metadata : String) (now : Nat) :
    sessionMessages (appendMessage v sid role content metadata now) sid =
      sessionMessages v sid ++
        [⟨v.messages.length + 1, sid, newIndex (sessionMessages v sid), role,
          content, now, metadata⟩] := by
  unfold sessionMessages
  rw [appendMessage_messages, List.filter_append]
  simp
  rfl

theorem sessionMessages_appendMessage_other (v : VaultState)
    (sid role content metadata : String) (now : Nat) (sid' : String)
    (h : sid' ≠ sid) :
    sessionMessages (appendMessage v sid role content metadata now) sid' =
      sessionMessages v sid' := by
  unfold sessionMessages
  rw [appendMessage_messages, List.filter_append]
  simp [Ne.symm h]

/-! ### `maxIdx` and `newIndex` -/

theorem maxIdx_spec (msgs : List Message) (j : Nat) (h : maxIdx msgs = some j) :
    j ∈ msgs.map (fun m => m.message_index) ∧
      ∀ i ∈ msgs.map (fun m => m.message_index), i ≤ j := by
  induction msgs generalizing j with
  | nil => simp [maxIdx] at h
  | cons m rest ih =>
    rw [maxIdx] at h
    cases hrest : maxIdx rest with
    | none =>
      rw [hrest] at h
      cases rest with
      | nil =>
        simp at h
        subst h
        simp
      | cons m' rest' => simp [maxIdx] at hrest
    | some k =>
      rw [hrest] at h
      have hk := ih k hrest
      simp at h
      constructor
      · rcases Nat.le_total m.message_index k with hle | hle
        · rw [← h, Nat.max_eq_right hle]
          simp only [List.map_cons, List.mem_cons]
          right
          exact hk.1
        · rw [← h, Nat.max_eq_left hle]
          simp
      · intro i hi
        simp at hi
        rcases hi with hi | hi
        · rw [← h, hi]
          exact Nat.le_max_left ..
        · have := hk.2 i (by simpa using hi)
          calc i ≤ k := this
            _ ≤ max m.message_index k := Nat.le_max_right ..
            _ = j := h

theorem newIndex_of_range (msgs : List Message) (n : Nat)
    (h : msgs.map (fun m => m.message_index) = List.range n) :
    newIndex msgs = n := by
  cases msgs with
  | nil =>
    have : n = 0 := by simpa using congrArg List.length h.symm
    simp [newIndex, maxIdx, this]
  | cons m rest =>
    cases hmax : maxIdx (m :: rest) with
    | none => simp [maxIdx] at hmax
    | some j =>
      have hspec := maxIdx_spec (m :: rest) j hmax
      have hn : 0 < n := by
        have := congrArg List.length h
        simp at this
        omega
      have hj_lt : j < n := by
        have := hspec.1
        rw [h] at this
        simpa [List.mem_range] using this
      have hj_ge : n - 1 ≤ j := by
        apply hspec.2
        rw [h]
        simp [List.mem_range]
        omega
      have : j = n - 1 := by omega
      simp [newIndex, hmax, this]
      omega

/-! ### Session lookup lemmas -/

theorem find?_id_map (l : List Session) (f : Session → Session)
    (hf : ∀ s, (f s).id = s.id) (sid : String) :
    (l.map f).find? (fun s => s.id = sid) =
      (l.find? (fun s => s.id = sid)).map f := by
  induction l with
  | nil => rfl
  | cons a l ih =>
    by_cases h : a.id = sid
    · simp [List.find?_cons, hf, h]
    · simp [List.find?_cons, hf, h, ih]

theorem findSession_ensureSession_self (v : VaultState) (sid : String)
    (a : Option String) (now : Nat) :
    (findSession (ensureSession v sid a now) sid).isSome := by
  unfold ensureSession
  cases h : findSession v sid with
  | some s => simp [h]
  | none =>
    unfold findSession at h ⊢
    simp [List.find?_append, h]

theorem findSession_ensureSession_mono (v : VaultState) (sid : String)
    (a : Option String) (now : Nat) (sid' : String)
    (h : (findSession v sid').isSome) :
    (findSession (ensureSession v sid a now) sid').isSome := by
  unfold ensureSession
  cases hf : findSession v sid with
  | some s => simpa using h
  | none =>
    unfold findSession at h ⊢
    rw [List.find?_append]
    cases hfind : v.sessions.find? (fun s => s.id = sid') with
    | some s => simp [hfind]
    | none => unfold findSession at *; simp [hfind] at h

theorem findSession_ensureSession_none (v : VaultState) (sid : String)
    (a : Option String) (now : Nat) (sid' : String)
    (h : findSession (ensureSession v sid a now) sid' = none) :
    findSession v sid' = none := by
  cases hf : findSession v sid' with
  | none => rfl
  | some s =>
    have : (findSession (ensureSession v sid a now) sid').isSome :=
      findSession_ensureSession_mono v sid a now sid' (by simp [hf])
    rw [h] at this
    simp at this

theorem appendMessage_sessions (v : VaultState) (sid role content metadata : String)
    (now : Nat) :
    (appendMessage v sid role content metadata now).sessions =
      (ensureSession v sid none now).sessions.map (fun s =>
        if s.id = sid then
          { s with last_activity := now, total_messages := s.total_messages + 1 }
        else s) := rfl

theorem findSession_appendMessage (v : VaultState) (sid role content metadata : String)
    (now : Nat) (sid' : String) :
    findSession (appendMessage v sid role content metadata now) sid' =
      (findSession (ensureSession v sid none now) sid').map (fun s =>
        if s.id = sid then
          { s with last_activity := now, total_messages := s.total_messages + 1 }
        else s) := by
  unfold findSession
  rw [appendMessage_sessions]
  apply find?_id_map
  intro s
  by_cases h : s.id = sid <;> simp [h]

/-! ### The store invariant -/

theorem vaultInv_empty : vaultInv emptyVault := by
  refine ⟨fun sid _ => rfl, fun s hs => by simp [emptyVault] at hs, fun sid => rfl⟩

theorem vaultInv_of_eq {v v' : VaultState} (h : vaultInv v)
    (hs : v'.sessions = v.sessions) (hm : v'.messages = v.messages) :
    vaultInv v' := by
  have hsm : ∀ sid, sessionMessages v' sid = sessionMessages v sid :=
    fun sid => sessionMessages_eq_of_messages_eq hm sid
  have hfind : ∀ sid, findSession v' sid = findSession v sid := by
    intro sid
    unfold findSession
    rw [hs]
  exact ⟨fun sid hnone => by rw [hsm]; exact h.1 sid (by rw [← hfind]; exact hnone),
    fun s hmem => by rw [hsm]; exact h.2.1 s (by rw [← hs]; exact hmem),
    fun sid => by rw [hsm]; exact h.2.2 sid⟩

theorem vaultInv_ensureSession {v : VaultState} (h : vaultInv v)
    (sid : String) (a : Option String) (now : Nat) :
    vaultInv (ensureSession v sid a now) := by
  have hm := ensureSession_messages v sid a now
  have hsm : ∀ sid', sessionMessages (ensureSession v sid a now) sid' = sessionMessages v sid' :=
    fun sid' => sessionMessages_eq_of_messages_eq hm sid'
  refine ⟨?_, ?_, ?_⟩
  · intro sid' hnone
    rw [hsm]
    exact h.1 sid' (findSession_ensureSession_none v sid a now sid' hnone)
  · intro s hs
    rw [hsm]
    unfold ensureSession at hs
    cases hf : findSession v sid with
    | some s₀ =>
      rw [hf] at hs
      exact h.2.1 s hs
    | none =>
      rw [hf] at hs
      simp at hs
      rcases hs with hs | hs
      · exact h.2.1 s hs
      · subst hs
        simp [h.1 sid hf]
  · intro sid'
    rw [hsm]
    exact h.2.2 sid'

theorem vaultInv_appendMessage {v : VaultState} (h : vaultInv v)
    (sid role content metadata : String) (now : Nat) :
    vaultInv (appendMessage v sid role content metadata now) := by
  have h1 := vaultInv_ensureSession h sid none now
  refine ⟨?_, ?_, ?_⟩
  · intro sid' hnone
    rw [findSession_appendMessage] at hnone
    have hens : findSession (ensureSession v sid none now) sid' = none :=
      Option.map_eq_none'.mp hnone
    have hne : sid' ≠ sid := by
      intro heq
      subst heq
      have := findSession_ensureSession_self v sid' none now
      rw [hens] at this
      simp at this
    rw [sessionMessages_appendMessage_other _ _ _ _ _ _ _ hne]
    exact h.1 sid' (findSession_ensureSession_none v sid none now sid' hens)
  · intro s' hs'
    rw [appendMessage_sessions] at hs'
    rcases List.mem_map.mp hs' with ⟨s, hsmem, rfl⟩
    have hcount := h1.2.1 s hsmem
    rw [sessionMessages_eq_of_messages_eq (ensureSession_messages v sid none now)] at hcount
    by_cases hid : s.id = sid
    · simp only [if_pos hid]
      show s.total_messages + 1 =
        (sessionMessages (appendMessage v sid role content metadata now) s.id).length
      rw [hid, sessionMessages_appendMessage_self]
      simp only [List.length_append, List.length_cons, List.length_nil]
      rw [hid] at hcount
      omega
    · simp only [if_neg hid]
      rw [sessionMessages_appendMessage_other _ _ _ _ _ _ _ hid]
      exact hcount
  · intro sid'
    by_cases hid : sid' = sid
    · subst hid
      have hv := h.2.2 sid'
      rw [sessionMessages_appendMessage_self]
      rw [List.map_append, hv, List.length_append]
      simp [newIndex_of_range _ _ hv, List.range_succ]
    · rw [sessionMessages_appendMessage_other _ _ _ _ _ _ _ hid]
      exact h.2.2 sid'

theorem vaultInv_recordCompaction {v : VaultState} (h : vaultInv v)
    (sid : String) (b a : Nat) (s : Bool) (now : Nat) :
    vaultInv (recordCompaction v sid b a s now) :=
  vaultInv_of_eq (vaultInv_ensureSession h sid none now) rfl rfl

theorem vaultInv_createSnapshot {v : VaultState} (h : vaultInv v)
    (sid name trigger : String) (now : Nat) :
    vaultInv (createSnapshot v sid name trigger now) :=
  vaultInv_of_eq (vaultInv_ensureSession h sid none now) rfl rfl

theorem vaultInv_applyOp {v : VaultState} (h : vaultInv v) (op : VaultOp) :
    vaultInv (applyOp v op) := by
  cases op with
  | append sid role content metadata now =>
    exact vaultInv_appendMessage h sid role content metadata now
  | snapshot sid name trigger now =>
    exact vaultInv_createSnapshot h sid name trigger now
  | compaction sid numBefore numAfter summary now =>
    exact vaultInv_recordCompaction h sid numBefore numAfter summary now

theorem vaultInv_foldl (ops : List VaultOp) :
    ∀ v, vaultInv v → vaultInv (ops.foldl applyOp v) := by
  induction ops with
  | nil => intro v h; simpa
  | cons op rest ih => intro v h; exact ih _ (vaultInv_applyOp h op)

theorem vaultInv_runOps (ops : List VaultOp) : vaultInv (runOps ops) :=
  vaultInv_foldl ops emptyVault vaultInv_empty

/-! ### Parser lemmas -/

theorem lineMessage_content_ne (l : Line) (pm : ParsedMessage)
    (h : lineMessage l = some pm) : pm.content ≠ "" := by
  cases l with
  | messageLine role content msgTs objTs =>
    simp only [lineMessage] at h
    split at h
    · rename_i hcond
      cases h
      exact hcond.1
    · cases h
  | sessionLine id ts => simp [lineMessage] at h
  | otherLine => simp [lineMessage] at h
  | malformed => simp [lineMessage] at h

theorem parse_content_ne (lines : List Line) :
    ∀ pm ∈ (parseSessionFile lines).messages, pm.content ≠ "" := by
  induction lines with
  | nil =>
    intro pm hpm
    simp [parseSessionFile] at hpm
  | cons l rest ih =>
    intro pm hpm
    simp only [parseSessionFile] at hpm
    rw [List.mem_append] at hpm
    rcases hpm with hpm | hpm
    · cases hl : lineMessage l with
      | none =>
        rw [hl] at hpm
        simp at hpm
      | some q =>
        rw [hl] at hpm
        simp at hpm
        subst hpm
        exact lineMessage_content_ne l _ hl
    · exact ih pm hpm

/-! ### The rows appended by one synchronization pass -/

theorem appendedRows_length (sid : String) (now : Nat) :
    ∀ (pms : List ParsedMessage) (rowLen idx : Nat),
      (appendedRows sid now rowLen idx pms).length = pms.length := by
  intro pms
  induction pms with
  | nil => intro rowLen idx; rfl
  | cons pm rest ih =>
    intro rowLen idx
    simp [appendedRows, ih]

theorem appendedRows_map_index (sid : String) (now : Nat) :
    ∀ (pms : List ParsedMessage) (rowLen idx : Nat),
      (appendedRows sid now rowLen idx pms).map (fun m => m.message_index) =
        List.range' idx pms.length := by
  intro pms
  induction pms with
  | nil => intro rowLen idx; rfl
  | cons pm rest ih =>
    intro rowLen idx
    simp [appendedRows, ih, List.range']

theorem appendedRows_map_role (sid : String) (now : Nat) :
    ∀ (pms : List ParsedMessage) (rowLen idx : Nat),
      (appendedRows sid now rowLen idx pms).map (fun m => m.role) =
        pms.map (fun pm => pm.role) := by
  intro pms
  induction pms with
  | nil => intro rowLen idx; rfl
  | cons pm rest ih =>
    intro rowLen idx
    simp [appendedRows, ih]

theorem appendedRows_map_content (sid : String) (now : Nat) :
    ∀ (pms : List ParsedMessage) (rowLen idx : Nat),
      (appendedRows sid now rowLen idx pms).map (fun m => m.content) =
        pms.map (fun pm => pm.content) := by
  intro pms
  induction pms with
  | nil => intro rowLen idx; rfl
  | cons pm rest ih =>
    intro rowLen idx
    simp [appendedRows, ih]

theorem appendedRows_filter_self (sid : String) (now : Nat) :
    ∀ (pms : List ParsedMessage) (rowLen idx : Nat),
      (appendedRows sid now rowLen idx pms).filter (fun m => m.session_id = sid) =
        appendedRows sid now rowLen idx pms := by
  intro pms
  induction pms with
  | nil => intro rowLen idx; rfl
  | cons pm rest ih =>
    intro rowLen idx
    simp [appendedRows, ih]

/-! ### The append loop of `syncSession` -/

theorem syncAppendLoop_compactions (sid : String) (now : Nat) :
    ∀ (pms : List ParsedMessage) (v : VaultState),
      (syncAppendLoop v sid now pms).1.compactions = v.compactions := by
  intro pms
  induction pms with
  | nil => intro v; rfl
  | cons pm rest ih =>
    intro v
    simp only [syncAppendLoop]
    by_cases h : pm.content ≠ ""
    · rw [if_pos h]
      simp only []
      rw [ih, appendMessage_compactions]
    · rw [if_neg h]
      exact ih v

theorem syncAppendLoop_spec (sid : String) (now : Nat) :
    ∀ (pms : List ParsedMessage) (v : VaultState) (c : Nat),
      (∀ pm ∈ pms, pm.content ≠ "") →
      (sessionMessages v sid).map (fun m => m.message_index) = List.range c →
      (syncAppendLoop v sid now pms).1.messages =
          v.messages ++ appendedRows sid now v.messages.length c pms ∧
        (syncAppendLoop v sid now pms).2 = pms.length := by
  intro pms
  induction pms with
  | nil =>
    intro v c hne hidx
    simp [syncAppendLoop, appendedRows]
  | cons pm rest ih =>
    intro v c hne hidx
    have hpm : pm.content ≠ "" := hne pm (by simp)
    have hc : newIndex (sessionMessages v sid) = c := newIndex_of_range _ c hidx
    simp only [syncAppendLoop]
    rw [if_pos hpm]
    have hmsgs :
        (appendMessage v sid pm.role pm.content (metaJson pm.timestamp) now).messages =
          v.messages ++
            [⟨v.messages.length + 1, sid, c, pm.role, pm.content, now,
              metaJson pm.timestamp⟩] := by
      rw [appendMessage_messages, hc]
    have hsm :
        sessionMessages (appendMessage v sid pm.role pm.content (metaJson pm.timestamp) now) sid =
          sessionMessages v sid ++
            [⟨v.messages.length + 1, sid, c, pm.role, pm.content, now,
              metaJson pm.timestamp⟩] := by
      rw [sessionMessages_appendMessage_self, hc]
    have hclen : (sessionMessages v sid).length = c := by
      have := congrArg List.length hidx
      simpa using this
    have hidx' :
        (sessionMessages (appendMessage v sid pm.role pm.content (metaJson pm.timestamp) now) sid).map
            (fun m => m.message_index) = List.range (c + 1) := by
      rw [hsm, List.map_append, hidx, List.range_succ]
      rfl
    have ihres := ih (appendMessage v sid pm.role pm.content (metaJson pm.timestamp) now)
      (c + 1) (fun q hq => hne q (by simp [hq])) hidx'
    refine ⟨?_, by simp [ihres.2]⟩
    rw [ihres.1, hmsgs]
    simp [appendedRows, List.append_assoc]

/-! ### `syncSession` lemmas -/

theorem getSessionStats_messageCount (v : VaultState) (sid : String) :
    (getSessionStats v sid).messageCount = (sessionMessages v sid).length := rfl

theorem syncSession_compactions (w : WatcherState) (lines : List Line) (now : Nat)
    (sess : SessionMeta) (ms : List ParsedMessage)
    (h : parseSessionFile lines = ⟨some sess, ms⟩) :
    (syncSession w lines now).1.vault.compactions =
      w.vault.compactions ++
        (if 0 < priorCount w sess.sessionKey ∧
            (ms.length : Int) < (priorCount w sess.sessionKey : Int) - 5 then
          [⟨sess.sessionKey, now, priorCount w sess.sessionKey, ms.length, 1⟩]
        else []) := by
  simp only [syncSession, h]
  split
  · rw [syncAppendLoop_compactions, recordCompaction_compactions]
    simp
  · rw [syncAppendLoop_compactions]
    simp

theorem syncLoopFrom_spec (v1 : VaultState) (sid : String) (now : Nat)
    (ms : List ParsedMessage) (c : Nat)
    (hidx1 : (sessionMessages v1 sid).map (fun m => m.message_index) = List.range c)
    (hle : c ≤ ms.length)
    (hne : ∀ pm ∈ ms, pm.content ≠ "") :
    (syncAppendLoop v1 sid now (ms.drop c)).1.messages =
        v1.messages ++ appendedRows sid now v1.messages.length c (ms.drop c) ∧
      (syncAppendLoop v1 sid now (ms.drop c)).2 = ms.length - c ∧
      (sessionMessages (syncAppendLoop v1 sid now (ms.drop c)).1 sid).map
          (fun m => m.message_index) = List.range ms.length := by
  have hne' : ∀ pm ∈ ms.drop c, pm.content ≠ "" :=
    fun pm hpm => hne pm (List.mem_of_mem_drop hpm)
  have spec := syncAppendLoop_spec sid now (ms.drop c) v1 c hne' hidx1
  refine ⟨spec.1, ?_, ?_⟩
  · rw [spec.2, List.length_drop]
  · show ((syncAppendLoop v1 sid now (ms.drop c)).1.messages.filter
        (fun m => m.session_id = sid)).map (fun m => m.message_index) = _
    rw [spec.1, List.filter_append, appendedRows_filter_self]
    show ((sessionMessages v1 sid ++ _).map _) = _
    rw [List.map_append, hidx1, appendedRows_map_index, List.length_drop]
    rw [List.range_eq_range' c, List.range_eq_range' ms.length]
    have happ := List.range'_append 0 c (ms.length - c) 1
    simp only [Nat.one_mul, Nat.zero_add] at happ
    rw [happ]
    congr 1
    omega

theorem syncFrom_spec (w : WatcherState) (v1 : VaultState) (sid : String)
    (now : Nat) (ms : List ParsedMessage) (c : Nat)
    (hm : v1.messages = w.vault.messages)
    (hidx : (sessionMessages w.vault sid).map (fun m => m.message_index) =
      List.range c)
    (hle : c ≤ ms.length)
    (hne : ∀ pm ∈ ms, pm.content ≠ "") :
    (syncAppendLoop v1 sid now
          (ms.drop (getSessionStats v1 sid).messageCount)).1.messages =
        w.vault.messages ++
          appendedRows sid now w.vault.messages.length c (ms.drop c) ∧
      (syncAppendLoop v1 sid now
          (ms.drop (getSessionStats v1 sid).messageCount)).2 = ms.length - c ∧
      (sessionMessages
          (syncAppendLoop v1 sid now
            (ms.drop (getSessionStats v1 sid).messageCount)).1 sid).map
          (fun m => m.message_index) = List.range ms.length := by
  have hsm1 : sessionMessages v1 sid = sessionMessages w.vault sid :=
    sessionMessages_eq_of_messages_eq hm sid
  have hidx1 : (sessionMessages v1 sid).map (fun m => m.message_index) =
      List.range c := by rw [hsm1]; exact hidx
  have hcount : (getSessionStats v1 sid).messageCount = c := by
    rw [getSessionStats_messageCount, hsm1]
    have := congrArg List.length hidx
    simpa using this
  rw [hcount]
  have core := syncLoopFrom_spec v1 sid now ms c hidx1 hle hne
  refine ⟨?_, core.2.1, core.2.2⟩
  rw [core.1, hm]

theorem syncSession_spec (w : WatcherState) (lines : List Line) (now : Nat)
    (sess : SessionMeta) (ms : List ParsedMessage) (c : Nat)
    (h : parseSessionFile lines = ⟨some sess, ms⟩)
    (hidx : (sessionMessages w.vault sess.sessionKey).map
      (fun m => m.message_index) = List.range c)
    (hle : c ≤ ms.length) :
    (syncSession w lines now).1.vault.messages =
        w.vault.messages ++
          appendedRows sess.sessionKey now w.vault.messages.length c (ms.drop c) ∧
      (syncSession w lines now).2.synced = ms.length - c ∧
      (syncSession w lines now).2.total = ms.length ∧
      (syncSession w lines now).2.sessionId = some sess.sessionKey ∧
      (syncSession w lines now).1.lastSync =
        setSync w.lastSync sess.sessionKey ⟨ms.length, now⟩ ∧
      (sessionMessages (syncSession w lines now).1.vault sess.sessionKey).map
          (fun m => m.message_index) = List.range ms.length := by
  have hne : ∀ pm ∈ ms, pm.content ≠ "" := by
    intro pm hpm
    apply parse_content_ne lines
    rw [h]
    exact hpm
  simp only [syncSession, h]
  refine ⟨?_, ?_, ?_, ?_, ?_, ?_⟩
  · split
    · exact (syncFrom_spec w _ sess.sessionKey now ms c
        (recordCompaction_messages _ _ _ _ _ _) hidx hle hne).1
    · exact (syncFrom_spec w w.vault sess.sessionKey now ms c rfl hidx hle hne).1
  · split
    · exact (syncFrom_spec w _ sess.sessionKey now ms c
        (recordCompaction_messages _ _ _ _ _ _) hidx hle hne).2.1
    · exact (syncFrom_spec w w.vault sess.sessionKey now ms c rfl hidx hle hne).2.1
  · trivial
  · trivial
  · trivial
  · split
    · exact (syncFrom_spec w _ sess.sessionKey now ms c
        (recordCompaction_messages _ _ _ _ _ _) hidx hle hne).2.2
    · exact (syncFrom_spec w w.vault sess.sessionKey now ms c rfl hidx hle hne).2.2

/-! ### Claim theorems -/

/-- Claim C4: for every session and every sequence of store write
operations, the message indices assigned by the store form the
contiguous, strictly increasing sequence `0, 1, …, count − 1`, and the
index assigned by the next append (`max + 1`, or 0 for an empty
session) equals the current message count. -/
theorem c4_append_index_invariant (ops : List VaultOp) (sid : String) :
    (sessionMessages (runOps ops) sid).map (fun m => m.message_index) =
        List.range (sessionMessages (runOps ops) sid).length ∧
      newIndex (sessionMessages (runOps ops) sid) =
        (sessionMessages (runOps ops) sid).length := by
  have h := (vaultInv_runOps ops).2.2 sid
  exact ⟨h, newIndex_of_range _ _ h⟩

/-- Claim C9: after any sequence of store operations, every session
row's `total_messages` counter equals the number of stored message
rows for that session, and one further `appendMessage` adds exactly
one message row for its session. -/
theorem c9_total_messages_consistent (ops : List VaultOp) :
    (∀ s ∈ (runOps ops).sessions,
        s.total_messages = (sessionMessages (runOps ops) s.id).length) ∧
      ∀ sid role content metadata now,
        (sessionMessages
            (runOps (ops ++ [VaultOp.append sid role content metadata now]))
            sid).length =
          (sessionMessages (runOps ops) sid).length + 1 := by
  constructor
  · exact fun s hs => (vaultInv_runOps ops).2.1 s hs
  · intro sid role content metadata now
    have hrun : runOps (ops ++ [VaultOp.append sid role content metadata now]) =
        appendMessage (runOps ops) sid role content metadata now := by
      rw [runOps, runOps, List.foldl_append]
      rfl
    rw [hrun, sessionMessages_appendMessage_self]
    simp

/-- Witness for C9 at a concrete operation list. -/
theorem c9_total_messages_consistent_witness :
    (⟨"s", none, 7, 7, 1⟩ : Session).total_messages =
      (sessionMessages (runOps [VaultOp.append "s" "user" "hi" "null" 7]) "s").length :=
  (c9_total_messages_consistent [VaultOp.append "s" "user" "hi" "null" 7]).1
    ⟨"s", none, 7, 7, 1⟩ (by decide)

/-- Claim C10: for a session id with no stored session row,
`getMessages` returns the empty sequence and `getSessionStats`
returns `messageCount = 0` with absent `lastActivity` and
`createdAt`, rather than failing. -/
theorem c10_unknown_session (ops : List VaultOp) (sid : String) (l o : Nat)
    (h : findSession (runOps ops) sid = none) :
    getMessages (runOps ops) sid l o = [] ∧
      getSessionStats (runOps ops) sid = ⟨sid, 0, none, none⟩ := by
  have hempty : sessionMessages (runOps ops) sid = [] := (vaultInv_runOps ops).1 sid h
  constructor
  · unfold getMessages sortedByTsDesc
    rw [hempty]
    simp
  · unfold getSessionStats
    rw [h, hempty]
    rfl

/-- Witness for C10 at a concrete store and unknown session id. -/
theorem c10_unknown_session_witness :
    getMessages (runOps [VaultOp.append "s" "user" "hi" "null" 7]) "ghost" 50 0 = [] ∧
      getSessionStats (runOps [VaultOp.append "s" "user" "hi" "null" 7]) "ghost" =
        ⟨"ghost", 0, none, none⟩ :=
  c10_unknown_session [VaultOp.append "s" "user" "hi" "null" 7] "ghost" 50 0 (by decide)

/-- Claim C8: `getMessages` returns the session's messages ordered
newest-first (non-increasing timestamps), skips the first `offset`
rows of that ordering, and returns at most `limit` rows; the
underlying ordering is a permutation of the session's messages. -/
theorem c8_getMessages_ordering (v : VaultState) (sid : String)
    (limit offset : Nat) :
    getMessages v sid limit offset =
        ((sortedByTsDesc v sid).drop offset).take limit ∧
      (sortedByTsDesc v sid).Pairwise tsGe ∧
      (sortedByTsDesc v sid).Perm (sessionMessages v sid) ∧
      (getMessages v sid limit offset).Pairwise tsGe ∧
      (getMessages v sid limit offset).length ≤ limit := by
  have hsorted : (sortedByTsDesc v sid).Pairwise tsGe :=
    List.sorted_insertionSort tsGe (sessionMessages v sid)
  refine ⟨rfl, hsorted, List.perm_insertionSort tsGe _, ?_, ?_⟩
  · have hsub : List.Sublist (getMessages v sid limit offset) (sortedByTsDesc v sid) :=
      List.Sublist.trans (List.take_sublist _ _) (List.drop_sublist _ _)
    exact hsorted.sublist hsub
  · exact List.length_take_le _ _

/-- Claim C7: the parser skips a malformed line and continues — a
transcript with a malformed line parses exactly like the same
transcript without it; in particular one invalid line among 10 valid
message lines yields exactly 10 parsed messages. -/
theorem c7_malformed_line_tolerance :
    (∀ ls1 ls2 : List Line,
        parseSessionFile (ls1 ++ Line.malformed :: ls2) =
          parseSessionFile (ls1 ++ ls2)) ∧
      (parseSessionFile
          (List.replicate 5 (Line.messageLine "user" (MsgContent.str "hi") none none) ++
            Line.malformed ::
              List.replicate 5
                (Line.messageLine "user" (MsgContent.str "hi") none none))).messages.length =
        10 := by
  constructor
  · intro ls1 ls2
    induction ls1 with
    | nil =>
      rcases hp : parseSessionFile ls2 with ⟨os, msgs⟩
      show (⟨match (parseSessionFile ls2).session with
              | some s => some s
              | none => lineSession Line.malformed,
             (lineMessage Line.malformed).toList ++ (parseSessionFile ls2).messages⟩ :
          ParseResult) = parseSessionFile ls2
      rw [hp]
      cases os <;> rfl
    | cons l rest ih =>
      show (⟨match (parseSessionFile (rest ++ Line.malformed :: ls2)).session with
              | some s => some s
              | none => lineSession l,
             (lineMessage l).toList ++
               (parseSessionFile (rest ++ Line.malformed :: ls2)).messages⟩ :
          ParseResult) =
        ⟨match (parseSessionFile (rest ++ ls2)).session with
          | some s => some s
          | none => lineSession l,
         (lineMessage l).toList ++ (parseSessionFile (rest ++ ls2)).messages⟩
      rw [ih]
  · rfl

/-- Claim C6: `syncAll` continues past a file whose read fails: the
run over the remaining files is unaffected (same final state, same
aggregate counts) and `filesScanned` counts every discovered file,
the failing one included. -/
theorem c6_syncAll_error_tolerance (w : WatcherState) (now : Nat)
    (fs1 fs2 : List (Except String (List Line))) (e : String) :
    (syncAll w (fs1 ++ Except.error e :: fs2) now).2.filesScanned =
        (fs1 ++ Except.error e :: fs2).length ∧
      (syncAll w (fs1 ++ Except.error e :: fs2) now).1 =
        (syncAll w (fs1 ++ fs2) now).1 ∧
      (syncAll w (fs1 ++ Except.error e :: fs2) now).2.totalSynced =
        (syncAll w (fs1 ++ fs2) now).2.totalSynced ∧
      (syncAll w (fs1 ++ Except.error e :: fs2) now).2.sessionsUpdated =
        (syncAll w (fs1 ++ fs2) now).2.sessionsUpdated := by
  have hstep : ∀ acc : WatcherState × Nat × Nat,
      syncAllStep now acc (Except.error e) = acc := fun _ => rfl
  refine ⟨rfl, ?_, ?_, ?_⟩ <;> simp [syncAll, List.foldl_append, hstep]

/-- Claim C5: the recovery composer renders the selected most recent
messages oldest-first (non-decreasing timestamps), truncates each
content to at most 2000 characters, returns the whole session (as a
permutation) when the request covers it, and on a session with no
messages still renders the document with an empty conversation
section. -/
theorem c5_recovery_compose (v : VaultState) (sid : String) (n : Nat)
    (iso : Nat → String) (generatedAt : String) :
    generateRecoveryFile v sid n iso generatedAt =
        recoveryHeader sid generatedAt (getMessages v sid n 0).length ++
          compactionSection iso (latestCompaction v sid) ++
          "## Recent Conversation\n\n" ++
          String.join ((recoveryMessages v sid n).map (renderMessage iso)) ∧
      (recoveryMessages v sid n).Pairwise (fun a b => a.timestamp ≤ b.timestamp) ∧
      (∀ m ∈ recoveryMessages v sid n, (truncContent m.content).length ≤ 2000) ∧
      ((sessionMessages v sid).length ≤ n →
        (recoveryMessages v sid n).Perm (sessionMessages v sid)) ∧
      (sessionMessages v sid = [] →
        recoveryMessages v sid n = [] ∧
          generateRecoveryFile v sid n iso generatedAt =
            recoveryHeader sid generatedAt 0 ++
              compactionSection iso (latestCompaction v sid) ++
              "## Recent Conversation\n\n") := by
  have hsorted : (sortedByTsDesc v sid).Pairwise tsGe :=
    List.sorted_insertionSort tsGe (sessionMessages v sid)
  have htake : (getMessages v sid n 0).Pairwise tsGe :=
    hsorted.sublist
      (List.Sublist.trans (List.take_sublist _ _) (List.drop_sublist _ _))
  refine ⟨rfl, ?_, ?_, ?_, ?_⟩
  · exact List.pairwise_reverse.mpr htake
  · intro m _
    by_cases hc : m.content = ""
    · unfold truncContent
      rw [if_pos hc]
      decide
    · unfold truncContent
      rw [if_neg hc]
      show (m.content.data.take 2000).length ≤ 2000
      exact List.length_take_le _ _
  · intro hlen
    have hsl : (sortedByTsDesc v sid).length ≤ n := by
      unfold sortedByTsDesc
      rw [(List.perm_insertionSort tsGe (sessionMessages v sid)).length_eq]
      exact hlen
    unfold recoveryMessages getMessages
    rw [List.drop_zero, List.take_of_length_le hsl]
    exact (List.reverse_perm _).trans (List.perm_insertionSort tsGe _)
  · intro hemp
    have hgm : getMessages v sid n 0 = [] := by
      unfold getMessages sortedByTsDesc
      rw [hemp]
      simp
    have hrm : recoveryMessages v sid n = [] := by
      unfold recoveryMessages
      rw [hgm]
      rfl
    refine ⟨hrm, ?_⟩
    simp only [generateRecoveryFile, hgm, hrm, List.map_nil, List.length_nil]
    rw [show String.join ([] : List String) = "" from rfl]
    simp

/-- Witness for C5: a 3-message session is fully recovered, and an
empty session renders the document with an empty conversation
section. -/
theorem c5_recovery_compose_witness :
    (recoveryMessages
        (runOps [VaultOp.append "s" "user" "a" "null" 1,
          VaultOp.append "s" "user" "b" "null" 2,
          VaultOp.append "s" "assistant" "c" "null" 3]) "s" 50).Perm
      (sessionMessages
        (runOps [VaultOp.append "s" "user" "a" "null" 1,
          VaultOp.append "s" "user" "b" "null" 2,
          VaultOp.append "s" "assistant" "c" "null" 3]) "s") ∧
    (recoveryMessages (runOps []) "x" 50 = [] ∧
      generateRecoveryFile (runOps []) "x" 50 (fun _ => "") "g" =
        recoveryHeader "x" "g" 0 ++
          compactionSection (fun _ => "") (latestCompaction (runOps []) "x") ++
          "## Recent Conversation\n\n") :=
  ⟨(c5_recovery_compose
      (runOps [VaultOp.append "s" "user" "a" "null" 1,
        VaultOp.append "s" "user" "b" "null" 2,
        VaultOp.append "s" "assistant" "c" "null" 3]) "s" 50
      (fun _ => "") "g").2.2.2.1 (by decide),
   (c5_recovery_compose (runOps []) "x" 50 (fun _ => "") "g").2.2.2.2 rfl⟩

/-- Claim C3: when the cursor remembers a positive count for the
session, a TruncationEvent is recorded if and only if the parsed
count is strictly below the remembered count minus 5, and the
recorded event carries before = remembered count, after = parsed
count, summary-available = 1. -/
theorem c3_truncation_threshold (w : WatcherState) (lines : List Line)
    (now : Nat) (sess : SessionMeta) (ms : List ParsedMessage)
    (info : LastSyncInfo)
    (h : parseSessionFile lines = ⟨some sess, ms⟩)
    (hls : lookupSync w.lastSync sess.sessionKey = some info)
    (hpos : 0 < info.messageCount) :
    ((syncSession w lines now).1.vault.compactions =
        w.vault.compactions ++
          [⟨sess.sessionKey, now, info.messageCount, ms.length, 1⟩] ↔
      (ms.length : Int) < (info.messageCount : Int) - 5) ∧
      (¬ (ms.length : Int) < (info.messageCount : Int) - 5 →
        (syncSession w lines now).1.vault.compactions = w.vault.compactions) := by
  have hprior : priorCount w sess.sessionKey = info.messageCount := by
    unfold priorCount
    rw [hls]
    rfl
  have hcomp := syncSession_compactions w lines now sess ms h
  rw [hprior] at hcomp
  by_cases hcond : (ms.length : Int) < (info.messageCount : Int) - 5
  · rw [if_pos ⟨hpos, hcond⟩] at hcomp
    exact ⟨⟨fun _ => hcond, fun _ => hcomp⟩, fun hn => absurd hcond hn⟩
  · rw [if_neg (fun hand => hcond hand.2), List.append_nil] at hcomp
    refine ⟨⟨fun heq => ?_, fun hc => absurd hc hcond⟩, fun _ => hcomp⟩
    exfalso
    rw [hcomp] at heq
    have := congrArg List.length heq
    simp at this

set_option maxRecDepth 8192 in
/-- Witness for C3 at the spec's own numbers: remembered count 100,
94 observed records the event; 96 observed records nothing. -/
theorem c3_truncation_threshold_witness :
    (syncSession ⟨emptyVault, [("session:s", ⟨100, 0⟩)]⟩
        (Line.sessionLine "s" none ::
          List.replicate 94 (Line.messageLine "user" (MsgContent.str "m") none none))
        777).1.vault.compactions =
      [⟨"session:s", 777, 100, 94, 1⟩] ∧
    (syncSession ⟨emptyVault, [("session:s", ⟨100, 0⟩)]⟩
        (Line.sessionLine "s" none ::
          List.replicate 96 (Line.messageLine "user" (MsgContent.str "m") none none))
        777).1.vault.compactions = [] :=
  ⟨((c3_truncation_threshold ⟨emptyVault, [("session:s", ⟨100, 0⟩)]⟩
      (Line.sessionLine "s" none ::
        List.replicate 94 (Line.messageLine "user" (MsgContent.str "m") none none))
      777 ⟨"session:s", "s", none⟩ (List.replicate 94 ⟨"user", "m", none⟩)
      ⟨100, 0⟩ rfl rfl (by decide)).1).mpr (by decide),
   (c3_truncation_threshold ⟨emptyVault, [("session:s", ⟨100, 0⟩)]⟩
      (Line.sessionLine "s" none ::
        List.replicate 96 (Line.messageLine "user" (MsgContent.str "m") none none))
      777 ⟨"session:s", "s", none⟩ (List.replicate 96 ⟨"user", "m", none⟩)
      ⟨100, 0⟩ rfl rfl (by decide)).2 (by decide)⟩

/-- Counterexample to claim C2 as stated: a cold-started watcher
(empty cursor map) whose store already holds 10 messages for the
session observes only 3 parsed messages (3 < 10 − 5), yet records no
TruncationEvent — the code's fallback for the cursor is
`{ messageCount: 0 }`, not the store's persisted count. -/
theorem c2_cold_start_counterexample :
    (getSessionStats
        (runOps (List.replicate 10 (VaultOp.append "session:s" "user" "m" "null" 0)))
        "session:s").messageCount = 10 ∧
      (parseSessionFile
          (Line.sessionLine "s" none ::
            List.replicate 3
              (Line.messageLine "user" (MsgContent.str "m") none none))).messages.length =
        3 ∧
      (syncSession
          ⟨runOps (List.replicate 10 (VaultOp.append "session:s" "user" "m" "null" 0)),
            []⟩
          (Line.sessionLine "s" none ::
            List.replicate 3
              (Line.messageLine "user" (MsgContent.str "m") none none))
          777).1.vault.compactions = [] := by
  refine ⟨rfl, rfl, ?_⟩
  rfl

/-- Claim C2 (amended): the priorCount used by the truncation check is
the cursor's remembered count when the session has been seen in this
process run, and 0 otherwise — not the store's persisted count; a
TruncationEvent is appended exactly when that priorCount is positive
and the parsed count is below it by more than 5, so a cold-started
process records no TruncationEvent regardless of the persisted
count. -/
theorem c2_priorCount_amended (w : WatcherState) (lines : List Line) (now : Nat)
    (sess : SessionMeta) (ms : List ParsedMessage)
    (h : parseSessionFile lines = ⟨some sess, ms⟩) :
    (∀ info, lookupSync w.lastSync sess.sessionKey = some info →
        priorCount w sess.sessionKey = info.messageCount) ∧
      (lookupSync w.lastSync sess.sessionKey = none →
        priorCount w sess.sessionKey = 0) ∧
      (syncSession w lines now).1.vault.compactions =
        w.vault.compactions ++
          (if 0 < priorCount w sess.sessionKey ∧
              (ms.length : Int) < (priorCount w sess.sessionKey : Int) - 5 then
            [⟨sess.sessionKey, now, priorCount w sess.sessionKey, ms.length, 1⟩]
          else []) ∧
      (lookupSync w.lastSync sess.sessionKey = none →
        (syncSession w lines now).1.vault.compactions = w.vault.compactions) := by
  refine ⟨?_, ?_, syncSession_compactions w lines now sess ms h, ?_⟩
  · intro info hinfo
    unfold priorCount
    rw [hinfo]
    rfl
  · intro hnone
    unfold priorCount
    rw [hnone]
    rfl
  · intro hnone
    have hprior : priorCount w sess.sessionKey = 0 := by
      unfold priorCount
      rw [hnone]
      rfl
    have hcomp := syncSession_compactions w lines now sess ms h
    rw [hprior] at hcomp
    rw [if_neg (fun hand => Nat.lt_irrefl 0 hand.1)] at hcomp
    simpa using hcomp

/-- Witness for the amended C2: the cold-started 10-persisted /
3-observed scenario leaves the compactions table unchanged. -/
theorem c2_priorCount_amended_witness :
    (syncSession
        ⟨runOps (List.replicate 10 (VaultOp.append "session:s" "user" "m" "null" 0)),
          []⟩
        (Line.sessionLine "s" none ::
          List.replicate 3
            (Line.messageLine "user" (MsgContent.str "m") none none))
        777).1.vault.compactions =
      (runOps (List.replicate 10 (VaultOp.append "session:s" "user" "m" "null" 0))).compactions :=
  (c2_priorCount_amended
    ⟨runOps (List.replicate 10 (VaultOp.append "session:s" "user" "m" "null" 0)), []⟩
    (Line.sessionLine "s" none ::
      List.replicate 3 (Line.messageLine "user" (MsgContent.str "m") none none))
    777 ⟨"session:s", "s", none⟩ (List.replicate 3 ⟨"user", "m", none⟩)
    rfl).2.2.2 rfl

/-- Claim C1: when a transcript's parsed message sequence grows from
N to N + k between two synchronize-one calls on the same session
(starting from a store whose indices satisfy the reachable-state
invariant and whose persisted count does not exceed N), the second
call appends exactly k new messages, they carry indices
N, …, N + k − 1 and the parsed roles and contents, the session's rows
after the second call are the first call's rows followed by the new
ones, and nothing previously stored changes; k = 0 (unchanged file)
appends nothing. -/
theorem c1_incremental_sync (w : WatcherState) (lines₁ lines₂ : List Line)
    (t₁ t₂ : Nat) (sess sess₂ : SessionMeta) (ms₁ ext : List ParsedMessage)
    (h₁ : parseSessionFile lines₁ = ⟨some sess, ms₁⟩)
    (h₂ : parseSessionFile lines₂ = ⟨some sess₂, ms₁ ++ ext⟩)
    (hkey : sess₂.sessionKey = sess.sessionKey)
    (hinv : (sessionMessages w.vault sess.sessionKey).map (fun m => m.message_index) =
      List.range (sessionMessages w.vault sess.sessionKey).length)
    (hle : (sessionMessages w.vault sess.sessionKey).length ≤ ms₁.length) :
    (syncSession (syncSession w lines₁ t₁).1 lines₂ t₂).2.synced = ext.length ∧
      (sessionMessages (syncSession w lines₁ t₁).1.vault sess.sessionKey).length =
        ms₁.length ∧
      ∃ news : List Message,
        (syncSession (syncSession w lines₁ t₁).1 lines₂ t₂).1.vault.messages =
            (syncSession w lines₁ t₁).1.vault.messages ++ news ∧
          sessionMessages (syncSession (syncSession w lines₁ t₁).1 lines₂ t₂).1.vault
              sess.sessionKey =
            sessionMessages (syncSession w lines₁ t₁).1.vault sess.sessionKey ++ news ∧
          news.length = ext.length ∧
          news.map (fun m => m.message_index) = List.range' ms₁.length ext.length ∧
          news.map (fun m => m.role) = ext.map (fun pm => pm.role) ∧
          news.map (fun m => m.content) = ext.map (fun pm => pm.content) := by
  have spec₁ := syncSession_spec w lines₁ t₁ sess ms₁
    (sessionMessages w.vault sess.sessionKey).length h₁ hinv hle
  have hidx₁ : (sessionMessages (syncSession w lines₁ t₁).1.vault sess.sessionKey).map
      (fun m => m.message_index) = List.range ms₁.length := spec₁.2.2.2.2.2
  have hlen₁ : (sessionMessages (syncSession w lines₁ t₁).1.vault sess.sessionKey).length =
      ms₁.length := by
    have := congrArg List.length hidx₁
    simpa using this
  have hidx₁' : (sessionMessages (syncSession w lines₁ t₁).1.vault sess₂.sessionKey).map
      (fun m => m.message_index) =
      List.range (sessionMessages (syncSession w lines₁ t₁).1.vault sess₂.sessionKey).length := by
    rw [hkey, hlen₁]
    exact hidx₁
  have hle₂ : (sessionMessages (syncSession w lines₁ t₁).1.vault sess₂.sessionKey).length ≤
      (ms₁ ++ ext).length := by
    rw [hkey, hlen₁]
    simp
  have spec₂ := syncSession_spec (syncSession w lines₁ t₁).1 lines₂ t₂ sess₂ (ms₁ ++ ext)
    (sessionMessages (syncSession w lines₁ t₁).1.vault sess₂.sessionKey).length
    h₂ hidx₁' hle₂
  have hc₂ : (sessionMessages (syncSession w lines₁ t₁).1.vault sess₂.sessionKey).length =
      ms₁.length := by rw [hkey, hlen₁]
  refine ⟨?_, hlen₁, ?_⟩
  · rw [spec₂.2.1, hc₂]
    simp
  · have hmsg := spec₂.1
    rw [hc₂] at hmsg
    rw [hkey] at hmsg
    refine ⟨appendedRows sess.sessionKey t₂
      (syncSession w lines₁ t₁).1.vault.messages.length ms₁.length
      ((ms₁ ++ ext).drop ms₁.length), hmsg, ?_, ?_, ?_, ?_, ?_⟩
    · show ((syncSession (syncSession w lines₁ t₁).1 lines₂ t₂).1.vault.messages.filter
        (fun m => m.session_id = sess.sessionKey)) = _
      rw [hmsg, List.filter_append, appendedRows_filter_self]
      rfl
    · rw [List.drop_left, appendedRows_length]
    · rw [List.drop_left, appendedRows_map_index]
    · rw [List.drop_left, appendedRows_map_role]
    · rw [List.drop_left, appendedRows_map_content]

/-- Witness for C1: a transcript growing from one to two messages has
the second synchronization append exactly one message, and re-syncing
the unchanged one-message transcript appends zero. -/
theorem c1_incremental_sync_witness :
    (syncSession
          (syncSession ⟨emptyVault, []⟩
            (Line.sessionLine "s" none ::
              [Line.messageLine "user" (MsgContent.str "a") none none]) 5).1
          (Line.sessionLine "s" none ::
            [Line.messageLine "user" (MsgContent.str "a") none none,
              Line.messageLine "assistant" (MsgContent.str "b") none none]) 6).2.synced =
        1 ∧
      (syncSession
          (syncSession ⟨emptyVault, []⟩
            (Line.sessionLine "s" none ::
              [Line.messageLine "user" (MsgContent.str "a") none none]) 5).1
          (Line.sessionLine "s" none ::
            [Line.messageLine "user" (MsgContent.str "a") none none]) 6).2.synced = 0 :=
  ⟨(c1_incremental_sync ⟨emptyVault, []⟩
      (Line.sessionLine "s" none ::
        [Line.messageLine "user" (MsgContent.str "a") none none])
      (Line.sessionLine "s" none ::
        [Line.messageLine "user" (MsgContent.str "a") none none,
          Line.messageLine "assistant" (MsgContent.str "b") none none])
      5 6 ⟨"session:s", "s", none⟩ ⟨"session:s", "s", none⟩
      [⟨"user", "a", none⟩] [⟨"assistant", "b", none⟩]
      rfl rfl rfl rfl (by decide)).1,
    (c1_incremental_sync ⟨emptyVault, []⟩
      (Line.sessionLine "s" none ::
        [Line.messageLine "user" (MsgContent.str "a") none none])
      (Line.sessionLine "s" none ::
        [Line.messageLine "user" (MsgContent.str "a") none none])
      5 6 ⟨"session:s", "s", none⟩ ⟨"session:s", "s", none⟩
      [⟨"user", "a", none⟩] []
      rfl rfl rfl rfl (by decide)).1⟩
